import Mathlib

/-!
# Verification of the CaseParser matching pipeline (src/LegalParser.py)

A shallow embedding of the pure core of the causelist → file-number matcher:
the string normalizers (`norm_case_type`, `norm_year`, `clean_title_for_match`),
the line classifiers (`is_party_like`, `cleanse_noise`), the block parser
(`parse_blocks`, including the clubbed-case regex scan), the reference indexer
(`index_master`) and the waterfall match engine (`match_engine`).

Strings are modelled as Lean `String` / `List Char`. The Python regexes are
compiled by hand into deterministic matchers that follow the backtracking
discipline of the concrete patterns (each pattern is simple enough that the
points where backtracking can occur are fixed and finite; these are spelled
out as descending loops). Uppercasing, `\w`, and `\s` are modelled over the
ASCII range (the inputs of interest are ASCII); missing/NaN inputs, handled by
`pd.isna` guards in the source, are outside the string model (they normalize
to the empty string upstream).
-/

namespace CaseParser

/-! ## Character classes and basic string utilities -/

/-- Whitespace as in the regex class `\s` (ASCII range). -/
def isSpc (c : Char) : Bool :=
  c == ' ' || c == '\t' || c == '\n' || c == '\r' || c == '\x0b' || c == '\x0c'

/-- Word characters as in the regex class `\w` (ASCII range). -/
def isWordChar (c : Char) : Bool := c.isAlphanum || c == '_'

/-- Lower-to-upper table for `str.upper()` (ASCII letters). -/
def upPairs : List (Char × Char) :=
  [('a', 'A'), ('b', 'B'), ('c', 'C'), ('d', 'D'), ('e', 'E'),
   ('f', 'F'), ('g', 'G'), ('h', 'H'), ('i', 'I'), ('j', 'J'), ('k', 'K'),
   ('l', 'L'), ('m', 'M'), ('n', 'N'), ('o', 'O'), ('p', 'P'), ('q', 'Q'),
   ('r', 'R'), ('s', 'S'), ('t', 'T'), ('u', 'U'), ('v', 'V'), ('w', 'W'),
   ('x', 'X'), ('y', 'Y'), ('z', 'Z')]

/-- Uppercase a single character (`str.upper()`, ASCII model). -/
def upChar (c : Char) : Char :=
  match upPairs.find? (fun p => p.1 == c) with
  | some p => p.2
  | none => c

/-- `str.upper()` on a character list. -/
def upper (l : List Char) : List Char := l.map upChar

def trimLeft (l : List Char) : List Char := l.dropWhile isSpc

def trimRight (l : List Char) : List Char := (l.reverse.dropWhile isSpc).reverse

/-- `str.strip()` (ASCII whitespace model). -/
def trim (l : List Char) : List Char := trimRight (trimLeft l)

def upperS (s : String) : String := String.mk (upper s.data)

def trimS (s : String) : String := String.mk (trim s.data)

/-- `str.replace(pat, rep)` on character lists, fuelled by the length of the
subject. All uses in the source have a nonempty literal pattern; for an empty
pattern this returns the subject unchanged. -/
def replFuel (pat rep : List Char) : Nat → List Char → List Char
  | 0, l => l
  | _ + 1, [] => []
  | fuel + 1, c :: rest =>
    if pat ≠ [] ∧ pat.isPrefixOf (c :: rest) then
      rep ++ replFuel pat rep fuel ((c :: rest).drop pat.length)
    else
      c :: replFuel pat rep fuel rest

/-- `str.replace(pat, rep)`. -/
def pyReplace (l pat rep : List Char) : List Char := replFuel pat rep l.length l

/-- Length of the run of characters satisfying `p` starting at index `i`. -/
def runLen (p : Char → Bool) (l : List Char) (i : Nat) : Nat :=
  ((l.drop i).takeWhile p).length

/-- Is the character at index `i` a word character (out of range: no)? -/
def isWordAt (l : List Char) (i : Nat) : Bool :=
  match l.get? i with
  | some c => isWordChar c
  | none => false

/-- Is there a word character just before index `i`? -/
def prevWordAt (l : List Char) (i : Nat) : Bool :=
  if i = 0 then false else isWordAt l (i - 1)

/-- Regex word boundary `\b` at index `i`. -/
def boundAt (l : List Char) (i : Nat) : Bool := prevWordAt l i != isWordAt l i

/-- The literal `lit` occurs at index `i` (case-sensitive). -/
def litAt (l lit : List Char) (i : Nat) : Bool := lit.isPrefixOf (l.drop i)

/-- The literal `lit` (given uppercased) occurs at index `i`, case-insensitively. -/
def litAtI (l lit : List Char) (i : Nat) : Bool := lit.isPrefixOf ((l.drop i).map upChar)

/-- Collapse every whitespace run to a single space (`re.sub(r"\s+", " ", ·)`);
the flag records whether the previous character was part of a whitespace run. -/
def collapseWsAux : List Char → Bool → List Char
  | [], _ => []
  | c :: rest, prevSp =>
    if isSpc c then
      if prevSp then collapseWsAux rest true else ' ' :: collapseWsAux rest true
    else c :: collapseWsAux rest false

def collapseWs (l : List Char) : List Char := collapseWsAux l false

/-- `str.split()`: split on whitespace runs, dropping empty pieces. -/
def splitWsAux : List Char → List Char → List String
  | [], acc => if acc.isEmpty then [] else [String.mk acc.reverse]
  | c :: rest, acc =>
    if isSpc c then
      if acc.isEmpty then splitWsAux rest [] else String.mk acc.reverse :: splitWsAux rest []
    else splitWsAux rest (c :: acc)

def splitWs (s : String) : List String := splitWsAux s.data []

/-! ## Normalizers (SECTION 1 of the source) -/

/-- Characters removed by `re.sub(r"[.\s()]", "", s)` in `norm_case_type`. -/
def ctypeStrip (c : Char) : Bool := c == '.' || isSpc c || c == '(' || c == ')'

/-- `s.upper().strip()` followed by `re.sub(r"[.\s()]", "", s)`. -/
def ctypeCore (l : List Char) : List Char :=
  (trim (upper l)).filter (fun c => !ctypeStrip c)

/-- The manual alias-replacement chain of `norm_case_type` (src line 37). -/
def ctypeRepl (l : List Char) : List Char :=
  pyReplace (pyReplace (pyReplace (pyReplace l "WP C".data "WPC".data)
    "WP(C)".data "WPC".data) "OW P".data "OWP".data) "C P OWP".data "CPOWP".data

/-- `norm_case_type` from src/LegalParser.py lines 27-38: uppercase, strip,
remove dots/whitespace/parentheses, then the literal alias replacements. -/
def norm_case_type (s : String) : String :=
  String.mk (ctypeRepl (ctypeCore s.data))

/-- Parser for `^(\d+)\s*/\s*(\d{2,4})$`: on success returns the digit groups. -/
def yearShape (l : List Char) : Option (List Char × List Char) :=
  let d1 := l.takeWhile Char.isDigit
  if d1.isEmpty then none
  else
    match (l.drop d1.length).dropWhile isSpc with
    | '/' :: r3 =>
      let r4 := r3.dropWhile isSpc
      if 2 ≤ r4.length ∧ r4.length ≤ 4 ∧ r4.all Char.isDigit then some (d1, r4) else none
    | _ => none

/-- Numeric value of a digit string (`int(num)`). -/
def natOfDigits (l : List Char) : Nat := l.foldl (fun a c => a * 10 + (c.toNat - 48)) 0

/-- `f"{n:02d}"`. -/
def padTwo (n : Nat) : List Char := if n < 10 then '0' :: (toString n).data else (toString n).data

/-- `norm_year` from src/LegalParser.py lines 40-69: uppercase and strip the
token; if it matches `number/year` pad the number to two digits and truncate a
4-digit year to its last two digits unless it is literally 2000; otherwise
return the (uppercased, stripped) token unchanged. -/
def norm_year (token : String) : String :=
  let t := trim (upper token.data)
  match yearShape t with
  | none => String.mk t
  | some (num, year) =>
    let numPad := padTwo (natOfDigits num)
    let yearNorm := if year.length = 4 ∧ year ≠ ['2', '0', '0', '0'] then year.drop 2 else year
    String.mk (numPad ++ '/' :: yearNorm)

/-- Matcher for one occurrence of `\bAND\s+OTHERS?\b` at index `i`; returns the
end index of the match. -/
def andOthersAt (l : List Char) (i : Nat) : Option Nat :=
  if boundAt l i && litAt l "AND".data i then
    let w := runLen isSpc l (i + 3)
    if w ≥ 1 && litAt l "OTHER".data (i + 3 + w) then
      let j := i + 3 + w + 5
      if litAt l "S".data j && boundAt l (j + 1) then some (j + 1)
      else if boundAt l j then some j
      else none
    else none
  else none

/-- Matcher for one occurrence of `\bAND\s+ANR\.?\b` at index `i`. -/
def andAnrAt (l : List Char) (i : Nat) : Option Nat :=
  if boundAt l i && litAt l "AND".data i then
    let w := runLen isSpc l (i + 3)
    if w ≥ 1 && litAt l "ANR".data (i + 3 + w) then
      let j := i + 3 + w + 3
      if litAt l ".".data j && boundAt l (j + 1) then some (j + 1)
      else if boundAt l j then some j
      else none
    else none
  else none

/-- `re.sub(pat, " ", ·)` for a matcher `m`: scan left to right, replacing each
non-overlapping match by a single space (all matches here are nonempty). -/
def subScan (m : List Char → Nat → Option Nat) (l : List Char) : Nat → Nat → List Char
  | 0, _ => []
  | fuel + 1, i =>
    match l.get? i with
    | none => []
    | some c =>
      match m l i with
      | some j => ' ' :: subScan m l fuel (max j (i + 1))
      | none => c :: subScan m l fuel (i + 1)

def subAll (m : List Char → Nat → Option Nat) (l : List Char) : List Char :=
  subScan m l l.length 0

/-- `clean_title_for_match` from src/LegalParser.py lines 71-84: uppercase,
remove `\bAND\s+OTHERS?\b` and `\bAND\s+ANR\.?\b`, replace every character
outside `[\w\s]` by a space, collapse whitespace, strip. -/
def clean_title_for_match (t : String) : String :=
  let u := upper t.data
  let u1 := subAll andOthersAt u
  let u2 := subAll andAnrAt u1
  let u3 := u2.map (fun c => if !(isWordChar c || isSpc c) then ' ' else c)
  let u4 := collapseWs u3
  String.mk (trim u4)

/-! ## Line classifiers (is_party_like, cleanse_noise) -/

/-- One alternative of `\b(VS| V |VERSUS)\b` matches at index `i`. -/
def vsMatchAt (l : List Char) (i : Nat) : Bool :=
  boundAt l i &&
    ((litAt l "VS".data i && boundAt l (i + 2)) ||
     (litAt l " V ".data i && boundAt l (i + 3)) ||
     (litAt l "VERSUS".data i && boundAt l (i + 6)))

/-- The institutional-litigant keywords of `is_party_like`. -/
def partyKeywords : List String :=
  ["STATE", "UNION", "CENTRAL", "DISTRICT", "TEHSILDAR", "TALUKA", "SDM", "DC",
   "DM", "REVENUE", "BANK", "CORPORATION", "DEPARTMENT", "COMMISSIONER", "AUTHORITY"]

/-- One keyword of `\b(STATE|UNION|...)\b` matches at index `i`. -/
def kwMatchAt (l : List Char) (i : Nat) : Bool :=
  boundAt l i && partyKeywords.any (fun kw => litAt l kw.data i && boundAt l (i + kw.length))

/-- A match of `\b[A-Z][A-Z]+\b` starts at index `i`: a maximal run of at least
two capital letters whose neighbours are non-word characters. -/
def capsTokenStartAt (l : List Char) (i : Nat) : Bool :=
  let r := runLen Char.isUpper l i
  !prevWordAt l i && r ≥ 2 && !isWordAt l (i + r)

/-- Number of matches of `re.findall(r"\b[A-Z][A-Z]+\b", ·)`. -/
def countCapsTokens (l : List Char) : Nat :=
  ((List.range l.length).filter (fun i => capsTokenStartAt l i)).length

/-- `is_party_like` from src/LegalParser.py lines 86-100. -/
def is_party_like (line : String) : Bool :=
  if line.data.isEmpty then false
  else
    let u := upper line.data
    if (List.range u.length).any (fun i => vsMatchAt u i) then true
    else if (List.range u.length).any (fun i => kwMatchAt u i) then true
    else countCapsTokens u ≥ 2

/-- The branch `FOR\s+(PET|RES|APPLICANT|RESPONDENT)` (followed by the group's
closing `\b`) matches at index `i`. -/
def forMatchAt (l : List Char) (i : Nat) : Bool :=
  litAt l "FOR".data i &&
    (let w := runLen isSpc l (i + 3)
     w ≥ 1 &&
       (let j := i + 3 + w
        (litAt l "PET".data j && boundAt l (j + 3)) ||
        (litAt l "RES".data j && boundAt l (j + 3)) ||
        (litAt l "APPLICANT".data j && boundAt l (j + 9)) ||
        (litAt l "RESPONDENT".data j && boundAt l (j + 10))))

/-- The branch `SR\.?\s*ADV` (followed by the group's closing `\b`) matches at
index `i`. -/
def srAdvMatchAt (l : List Char) (i : Nat) : Bool :=
  litAt l "SR".data i &&
    ((litAt l ".".data (i + 2) &&
        (let w := runLen isSpc l (i + 3)
         litAt l "ADV".data (i + 3 + w) && boundAt l (i + 3 + w + 3))) ||
     (let w := runLen isSpc l (i + 2)
      litAt l "ADV".data (i + 2 + w) && boundAt l (i + 2 + w + 3)))

/-- A match of the counsel-marker search pattern
`\b(FOR\s+(PET|RES|APPLICANT|RESPONDENT)|CAVEAT|AAG\b|SR\.?\s*ADV|ADV\.)\b`
starts at index `i`. -/
def noiseSearchAt (l : List Char) (i : Nat) : Bool :=
  boundAt l i &&
    (forMatchAt l i ||
     (litAt l "CAVEAT".data i && boundAt l (i + 6)) ||
     (litAt l "AAG".data i && boundAt l (i + 3)) ||
     srAdvMatchAt l i ||
     (litAt l "ADV.".data i && boundAt l (i + 4)))

/-- The filing prefixes of `cleanse_noise`. -/
def noisePrefixes : List String :=
  ["CM", "IA", "CRM", "CRLM", "CRR", "CRMC", "CMM", "CAVT", "CAVEAT"]

/-- `re.match(r"^\s*(CM|IA|CRM|CRLM|CRR|CRMC|CMM|CAVT|CAVEAT)\b", ·)` succeeds. -/
def noiseMatchStart (l : List Char) : Bool :=
  let w := runLen isSpc l 0
  noisePrefixes.any (fun p => litAt l p.data w && boundAt l (w + p.length))

/-- `cleanse_noise` from src/LegalParser.py lines 102-110. -/
def cleanse_noise (line : String) : Bool :=
  let u := upper line.data
  (List.range u.length).any (fun i => noiseSearchAt u i) || noiseMatchStart u

/-! ## Block parser (SECTION 3 of the source) -/

/-- Characters of the class `[A-Za-z()\.]` (case type token). -/
def isCtypeChar (c : Char) : Bool := c.isAlpha || c == '(' || c == ')' || c == '.'

/-- Characters of the class `[A-Za-z0-9\-()/ ]` (case number in `start_pat`). -/
def isStartCnoChar (c : Char) : Bool :=
  c.isAlphanum || c == '-' || c == '(' || c == ')' || c == '/' || c == ' '

/-- Characters of the class `[A-Za-z0-9\-() ]` (case number in `cw_inline_pat`). -/
def isCwCnoChar (c : Char) : Bool :=
  c.isAlphanum || c == '-' || c == '(' || c == ')' || c == ' '

/-- Greedy search for the split of `[A-Za-z0-9\-()/ ]+/\d{2,4}` in `start_pat`:
descending over the length `n` of the `+` part, accept the largest `n` such
that position `n` holds a slash followed by at least two digits; returns that
length and the number of digits taken (at most four). -/
def slashSplit (t : List Char) : Nat → Option (Nat × Nat)
  | 0 => none
  | n + 1 =>
    let d := runLen Char.isDigit t (n + 2)
    if t.get? (n + 1) == some '/' && d ≥ 2 then some (n + 1, min 4 d)
    else slashSplit t n

/-- The four capture groups of `start_pat`. -/
structure StartGroups where
  sno : String
  ctypeRaw : String
  cnoRaw : String
  tail : String
deriving DecidableEq

/-- Matcher for
`^\s*(\d+)\s+([A-Za-z()\.]+)\s+([A-Za-z0-9\-()/ ]+/\d{2,4})\s*(.*)$`
(`start_pat`, src line 185). The quantifier interactions are deterministic
except for the case-number group, handled by `slashSplit`; trailing `(.*)$`
captures the rest of the line (lines contain no newline). -/
def startMatch (line : String) : Option StartGroups :=
  let l := line.data
  let w0 := runLen isSpc l 0
  let dn := runLen Char.isDigit l w0
  if dn = 0 then none
  else
    let p1 := w0 + dn
    let w1 := runLen isSpc l p1
    if w1 = 0 then none
    else
      let p2 := p1 + w1
      let cn := runLen isCtypeChar l p2
      if cn = 0 then none
      else
        let p3 := p2 + cn
        let w2 := runLen isSpc l p3
        if w2 = 0 then none
        else
          let p4 := p3 + w2
          let t5 := l.drop p4
          match slashSplit t5 (runLen isStartCnoChar l p4) with
          | none => none
          | some (alen, k) =>
            let cnoLen := alen + 1 + k
            let p5 := p4 + cnoLen
            let w3 := runLen isSpc l p5
            some ⟨String.mk ((l.drop w0).take dn), String.mk ((l.drop p2).take cn),
                  String.mk (t5.take cnoLen), String.mk (l.drop (p5 + w3))⟩

/-- One match of `cw_inline_pat`: end position and the three capture groups. -/
structure CwMatch where
  endPos : Nat
  ctype : Option String
  cno : String
  title : Option String
deriving DecidableEq

/-- The optional title group `(?:\s+(?P<title>[^\n]+))?` of `cw_inline_pat` at
position `p`: `\s+` is greedy from the longest whitespace run down to one
character, and `[^\n]+` then takes everything up to the next newline (it must
be nonempty). -/
def cwTitleLoop (l : List Char) (p : Nat) : Nat → Option (Nat × String)
  | 0 => none
  | w + 1 =>
    let q := p + (w + 1)
    match l.get? q with
    | some c =>
      if c ≠ '\n' then
        let t := (l.drop q).takeWhile (fun d => d ≠ '\n')
        some (q + t.length, String.mk t)
      else cwTitleLoop l p w
    | none => cwTitleLoop l p w

def cwTitleAt (l : List Char) (p : Nat) : Option (Nat × String) :=
  cwTitleLoop l p (runLen isSpc l p)

/-- The mandatory group `(?P<cno>[A-Za-z0-9\-() ]+/\d{2,4})` of `cw_inline_pat`
at position `r`, together with the optional title group: the character class
excludes the slash, so the `+` part is exactly the maximal class run, which
must be followed by a slash and at least two digits (at most four taken). -/
def cwCnoAt (l : List Char) (r : Nat) : Option (Nat × String × Option String) :=
  let run := runLen isCwCnoChar l r
  if run = 0 then none
  else if l.get? (r + run) == some '/' then
    let d := runLen Char.isDigit l (r + run + 1)
    if d ≥ 2 then
      let k := min 4 d
      let cnoEnd := r + run + 1 + k
      let cno := String.mk ((l.drop r).take (run + 1 + k))
      match cwTitleAt l cnoEnd with
      | some (e, t) => some (e, cno, some t)
      | none => some (cnoEnd, cno, none)
    else none
  else none

/-- The `\s+` between the optional ctype group and the cno group, backtracking
from the longest whitespace run down to one character. -/
def cwCtWsLoop (l : List Char) (q ctRun : Nat) : Nat → Option (Nat × Option String × String × Option String)
  | 0 => none
  | w + 1 =>
    match cwCnoAt l (q + ctRun + (w + 1)) with
    | some (e, cno, t) => some (e, some (String.mk ((l.drop q).take ctRun)), cno, t)
    | none => cwCtWsLoop l q ctRun w

/-- `(?:(?P<ctype>[A-Za-z()\.]+)\s+)?(?P<cno>...)...` at fixed position `q`:
the greedy optional group is tried first (its `+` part is deterministically the
maximal class run, since class characters are never whitespace), then the
group is skipped. -/
def cwContAtQ (l : List Char) (q : Nat) : Option (Nat × Option String × String × Option String) :=
  let ctRun := runLen isCtypeChar l q
  let withCt :=
    if ctRun ≥ 1 then cwCtWsLoop l q ctRun (runLen isSpc l (q + ctRun))
    else none
  match withCt with
  | some r => some r
  | none =>
    match cwCnoAt l q with
    | some (e, cno, t) => some (e, none, cno, t)
    | none => none

/-- The `\s*` after the marker, backtracking from the longest whitespace run
down to the empty run (shorter runs can matter because the cno class contains
the space character). -/
def cwWsLoop (l : List Char) (m : Nat) : Nat → Option (Nat × Option String × String × Option String)
  | 0 => cwContAtQ l m
  | w + 1 =>
    match cwContAtQ l (m + (w + 1)) with
    | some r => some r
    | none => cwWsLoop l m w

def cwContAt (l : List Char) (m : Nat) : Option (Nat × Option String × String × Option String) :=
  cwWsLoop l m (runLen isSpc l m)

/-- Matcher for `cw_inline_pat` (src line 188) at position `p`:
`(?:\bc/w\b|\bwith\b)` (case-insensitive), then the continuation. -/
def cwMatchAt (l : List Char) (p : Nat) : Option CwMatch :=
  let afterMarker : Nat → Option CwMatch := fun mlen =>
    match cwContAt l (p + mlen) with
    | some (e, ct, cno, t) => some ⟨e, ct, cno, t⟩
    | none => none
  if boundAt l p && litAtI l "C/W".data p && boundAt l (p + 3) then
    match afterMarker 3 with
    | some r => some r
    | none =>
      if litAtI l "WITH".data p && boundAt l (p + 4) then afterMarker 4 else none
  else if boundAt l p && litAtI l "WITH".data p && boundAt l (p + 4) then afterMarker 4
  else none

/-- `finditer`: scan left to right; at a match, resume at its end position
(matches are nonempty), else advance one character. -/
def cwScan (l : List Char) : Nat → Nat → List CwMatch
  | 0, _ => []
  | fuel + 1, p =>
    if p ≥ l.length then []
    else
      match cwMatchAt l p with
      | some m => m :: cwScan l fuel (max m.endPos (p + 1))
      | none => cwScan l fuel (p + 1)

def cwFindAll (l : List Char) : List CwMatch := cwScan l (l.length + 1) 0

/-- A parsed case record (one output row of `parse_blocks`). -/
structure Row where
  sno : String
  caseType : String
  caseNo : String
  title : String
  titleSrc : String
deriving DecidableEq

def notStart (x : String) : Bool := (startMatch x).isNone

/-- The title-fragment collection of the continuation-line loop (src lines
214-221): a continuation line is appended (trimmed) when it is not noise, is
party-like, and fewer than two fragments have been collected. -/
def titleFold : List String → List String → List String
  | parts, [] => parts
  | parts, ln :: rest =>
    if !cleanse_noise ln && is_party_like ln && parts.length < 2 then
      titleFold (parts ++ [trimS ln]) rest
    else titleFold parts rest

/-- `re.sub(r"\s+", " ", " ".join(parts).strip())` (src line 224). -/
def joinTitle (parts : List String) : String :=
  String.mk (collapseWs (trim (String.intercalate " " parts).data))

/-- A clubbed row from one `cw_inline_pat` match (src lines 229-233). -/
def mkClubbed (sno ctypeNorm : String) (m : CwMatch) : Row :=
  { sno := sno
    caseType := norm_case_type (m.ctype.getD ctypeNorm)
    caseNo := norm_year m.cno
    title := trimS (m.title.getD "")
    titleSrc := "Clubbed inline" }

/-- `parse_blocks` (src lines 176-235), fuelled by the number of lines: skip
lines that do not match `start_pat`; at a start line, collect the continuation
lines up to the next start line, emit the primary record, then one clubbed
record per `cw_inline_pat` match over the block text. -/
def parseBlocksAux : Nat → List String → List Row
  | 0, _ => []
  | _ + 1, [] => []
  | fuel + 1, ln :: rest =>
    match startMatch ln with
    | none => parseBlocksAux fuel rest
    | some g =>
      let cont := rest.takeWhile notStart
      let rem := rest.dropWhile notStart
      let ctype := norm_case_type g.ctypeRaw
      let ht := trimS g.tail
      let parts0 := if ht ≠ "" then [ht] else []
      let parts := titleFold parts0 cont
      let src :=
        if ht ≠ "" then "Inline title"
        else if parts.length > 0 then "Next-line party" else "Inline only"
      let blockText := String.intercalate "\n" (ln :: cont)
      let primary : Row :=
        { sno := g.sno, caseType := ctype, caseNo := norm_year g.cnoRaw,
          title := joinTitle parts, titleSrc := src }
      primary :: ((cwFindAll blockText.data).map (mkClubbed g.sno ctype) ++ parseBlocksAux fuel rem)

def parse_blocks (lines : List String) : List Row := parseBlocksAux lines.length lines

/-! ## Reference index (SECTION 2) and match engine (SECTION 4) -/

/-- A reference (master) record with its load-time normalized fields. -/
structure RefRec where
  caseType : String
  caseNo : String
  title : String
  fileNo : String
  case_type_norm : String
  case_no_norm : String
  title_clean : String
deriving DecidableEq

/-- Dictionary lookup on an association list (first binding wins). -/
def alookup {α β : Type} [DecidableEq α] : List (α × β) → α → Option β
  | [], _ => none
  | (k, v) :: rest, key => if k = key then some v else alookup rest key

/-- `if key not in by_ct_cno: by_ct_cno[key] = r` — insert only when absent. -/
def insNew (m : List ((String × String) × RefRec)) (k : String × String) (v : RefRec) :
    List ((String × String) × RefRec) :=
  if (alookup m k).isSome then m else m ++ [(k, v)]

/-- `by_cno.setdefault(key, []).append(r)` — append to the candidate list of
`key`, creating it when absent. -/
def mmAdd : List (String × List RefRec) → String → RefRec → List (String × List RefRec)
  | [], k, v => [(k, [v])]
  | (k1, l) :: rest, k, v =>
    if k1 = k then (k1, l ++ [v]) :: rest else (k1, l) :: mmAdd rest k v

/-- One iteration of the `index_master` loop (src lines 148-153). A record
enters the secondary map only when its normalized case number is a nonempty
string (`pd.notna(x) and str(x)`; the fields here are strings, for which
`pd.notna` is always true). -/
def indexStep (acc : List ((String × String) × RefRec) × List (String × List RefRec))
    (r : RefRec) : List ((String × String) × RefRec) × List (String × List RefRec) :=
  (insNew acc.1 (r.case_type_norm, r.case_no_norm) r,
   if r.case_no_norm ≠ "" then mmAdd acc.2 r.case_no_norm r else acc.2)

/-- `index_master` from src/LegalParser.py lines 140-154. -/
def index_master (master : List RefRec) :
    List ((String × String) × RefRec) × List (String × List RefRec) :=
  master.foldl indexStep ([], [])

/-- The formatted summary `f"{fno} {Case Type} {Case No.} {Title}"`. -/
def verb (r : RefRec) : String :=
  r.fileNo ++ " " ++ r.caseType ++ " " ++ r.caseNo ++ " " ++ r.title

/-- `len(set(tq_list) & set(cand_tokens))`. -/
def scoreOf (tq : List String) (cand : RefRec) : Nat :=
  (tq.toFinset ∩ (splitWs cand.title_clean).toFinset).card

/-- The candidate loop of `match_engine` (src lines 264-284): first-token check
first; otherwise keep the best strictly-greater overlap score (initial score
-1, so the first candidate always becomes the running best). -/
def matchLoop (tq : List String) (firstTok : String) :
    List RefRec → Option RefRec → Int → String × String × String
  | [], best, bestscore =>
    match best with
    | some b =>
      if bestscore ≥ 1 then (b.fileNo, verb b, "Cross-type title overlap")
      else ("", "", "No overlap (type mismatch)")
    | none => ("", "", "No overlap (type mismatch)")
  | c :: rest, best, bestscore =>
    let ctoks := splitWs c.title_clean
    if ctoks ≠ [] ∧ firstTok ≠ "" ∧ ctoks.headD "" = firstTok then
      (c.fileNo, verb c, "Cross-type first-token match")
    else if (scoreOf tq c : Int) > bestscore then
      matchLoop tq firstTok rest (some c) (scoreOf tq c : Int)
    else matchLoop tq firstTok rest best bestscore

/-- `match_engine` from src/LegalParser.py lines 241-286. -/
def match_engine (row : Row) (by_ct_cno : List ((String × String) × RefRec))
    (by_cno : List (String × List RefRec)) : String × String × String :=
  match alookup by_ct_cno (row.caseType, row.caseNo) with
  | some r0 => (r0.fileNo, verb r0, "Exact (type+no)")
  | none =>
    let cands := (alookup by_cno row.caseNo).getD []
    if cands ≠ [] ∧ row.title ≠ "" then
      let tq := splitWs (clean_title_for_match row.title)
      matchLoop tq (tq.headD "") cands none (-1)
    else ("", "", "Not found")

/-! ## Proof-side helper definitions -/

/-- One step of the running-best accumulator of the overlap tier: replace the
best candidate exactly when the score strictly exceeds the best score. -/
def bestStep (tq : List String) (acc : Option RefRec × Int) (c : RefRec) : Option RefRec × Int :=
  if (scoreOf tq c : Int) > acc.2 then (some c, (scoreOf tq c : Int)) else acc

/-- The result produced after the candidate loop from the final accumulator. -/
def loopFinish : Option RefRec × Int → String × String × String
  | (some b, s) =>
    if s ≥ 1 then (b.fileNo, verb b, "Cross-type title overlap")
    else ("", "", "No overlap (type mismatch)")
  | (none, _) => ("", "", "No overlap (type mismatch)")

/-- The first-token condition tested for a candidate inside the loop. -/
def ftCond (firstTok : String) (c : RefRec) : Prop :=
  splitWs c.title_clean ≠ [] ∧ firstTok ≠ "" ∧ (splitWs c.title_clean).headD "" = firstTok

instance (firstTok : String) (c : RefRec) : Decidable (ftCond firstTok c) := by
  unfold ftCond; infer_instance

/-! ## Sample data for concrete witnesses -/

/-- A reference record under type `WPC`, number `01/23`. -/
def refW : RefRec :=
  { caseType := "W.P.(C)", caseNo := "1/2023", title := "Ram Chand vs State", fileNo := "F100",
    case_type_norm := "WPC", case_no_norm := "01/23", title_clean := "RAM CHAND VS STATE" }

/-- A same-number reference record under a different type, whose cleaned title
overlaps queries about Gopal Singh. -/
def refO : RefRec :=
  { caseType := "OWP", caseNo := "1/2023", title := "Gopal Singh And Others", fileNo := "F200",
    case_type_norm := "OWP", case_no_norm := "01/23", title_clean := "GOPAL SINGH" }

/-- A same-number reference record whose cleaned title starts with RAM. -/
def refR : RefRec :=
  { caseType := "CRM", caseNo := "1/2023", title := "Ram Lal vs Mohan", fileNo := "F300",
    case_type_norm := "CRM", case_no_norm := "01/23", title_clean := "RAM LAL VS MOHAN" }

/-- A same-number reference record with a large title overlap for queries
about Ram Chand but a different first token. -/
def refH : RefRec :=
  { caseType := "SLP", caseNo := "1/2023", title := "Sham Chand Kumar Singh Ram", fileNo := "F500",
    case_type_norm := "SLP", case_no_norm := "01/23", title_clean := "SHAM CHAND KUMAR SINGH RAM" }

/-- A reference record whose normalized case number is empty. -/
def refE : RefRec :=
  { caseType := "X", caseNo := "", title := "T", fileNo := "F400",
    case_type_norm := "X", case_no_norm := "", title_clean := "T" }

/-! ## Lemmas about uppercasing, trimming and replacement -/

theorem upChar_idem (c : Char) : upChar (upChar c) = upChar c := by
  cases h : upPairs.find? (fun p => p.1 == c) with
  | none =>
    have hc : upChar c = c := by unfold upChar; rw [h]
    rw [hc]; exact hc
  | some p =>
    have hp : upChar c = p.2 := by unfold upChar; rw [h]
    have hmem : p ∈ upPairs := List.mem_of_find?_eq_some h
    have hall : upPairs.all (fun q => upChar q.2 == q.2) = true := by decide
    have h2 : upChar p.2 = p.2 := eq_of_beq (List.all_eq_true.mp hall p hmem)
    rw [hp]; exact h2

theorem upper_eq_self {l : List Char} (h : ∀ c ∈ l, upChar c = c) : upper l = l := by
  unfold upper
  rw [List.map_congr_left h]
  exact List.map_id l

theorem mem_trim {c : Char} {l : List Char} (h : c ∈ trim l) : c ∈ l := by
  unfold trim trimRight trimLeft at h
  rw [List.mem_reverse] at h
  have h2 := (List.dropWhile_sublist isSpc).subset h
  rw [List.mem_reverse] at h2
  exact (List.dropWhile_sublist isSpc).subset h2

theorem dropWhile_eq_self_of {p : Char → Bool} {l : List Char}
    (h : ∀ c ∈ l, p c = false) : l.dropWhile p = l := by
  cases l with
  | nil => rfl
  | cons a t => simp [List.dropWhile_cons, h a (List.mem_cons_self a t)]

theorem trim_eq_self_of {l : List Char} (h : ∀ c ∈ l, isSpc c = false) : trim l = l := by
  unfold trim trimRight trimLeft
  rw [dropWhile_eq_self_of h]
  rw [dropWhile_eq_self_of (fun c hc => h c (List.mem_reverse.mp hc))]
  exact List.reverse_reverse l

theorem replFuel_eq_self (pat rep : List Char) (c : Char) (hc : c ∈ pat) :
    ∀ fuel l, c ∉ l → replFuel pat rep fuel l = l := by
  intro fuel
  induction fuel with
  | zero => intro l _; rfl
  | succ n ih =>
    intro l hl
    cases l with
    | nil => rfl
    | cons a t =>
      have hguard : ¬(pat ≠ [] ∧ pat.isPrefixOf (a :: t) = true) := by
        rintro ⟨-, hpre⟩
        exact hl ((List.isPrefixOf_iff_prefix.mp hpre).subset hc)
      have ht : c ∉ t := fun hmem => hl (List.mem_cons_of_mem a hmem)
      show (if pat ≠ [] ∧ pat.isPrefixOf (a :: t) then
          rep ++ replFuel pat rep n ((a :: t).drop pat.length)
        else a :: replFuel pat rep n t) = a :: t
      rw [if_neg hguard, ih t ht]

theorem pyReplace_eq_self {l pat rep : List Char} {c : Char} (hc : c ∈ pat) (hl : c ∉ l) :
    pyReplace l pat rep = l :=
  replFuel_eq_self pat rep c hc l.length l hl

theorem core_no_strip {l : List Char} {c : Char} (h : c ∈ ctypeCore l) :
    ctypeStrip c = false := by
  unfold ctypeCore at h
  simpa using List.of_mem_filter h

theorem core_no_space {l : List Char} : ' ' ∉ ctypeCore l :=
  fun h => absurd (core_no_strip h) (by decide)

theorem core_no_paren {l : List Char} : '(' ∉ ctypeCore l :=
  fun h => absurd (core_no_strip h) (by decide)

theorem ctypeRepl_eq_self {l : List Char} (hsp : ' ' ∉ l) (hpar : '(' ∉ l) :
    ctypeRepl l = l := by
  unfold ctypeRepl
  rw [pyReplace_eq_self (c := ' ') (by decide) hsp]
  rw [pyReplace_eq_self (c := '(') (by decide) hpar]
  rw [pyReplace_eq_self (c := ' ') (by decide) hsp]
  rw [pyReplace_eq_self (c := ' ') (by decide) hsp]

theorem norm_case_type_eq_core (s : String) :
    norm_case_type s = String.mk (ctypeCore s.data) := by
  unfold norm_case_type
  rw [ctypeRepl_eq_self core_no_space core_no_paren]

theorem mem_core_upChar {l : List Char} {c : Char} (h : c ∈ ctypeCore l) : upChar c = c := by
  unfold ctypeCore at h
  have h2 : c ∈ upper l := mem_trim (List.mem_of_mem_filter h)
  unfold upper at h2
  obtain ⟨c0, -, rfl⟩ := List.mem_map.mp h2
  exact upChar_idem c0

theorem ctypeCore_idem (l : List Char) : ctypeCore (ctypeCore l) = ctypeCore l := by
  have hup : upper (ctypeCore l) = ctypeCore l :=
    upper_eq_self fun _ hc => mem_core_upChar hc
  have hsp : ∀ c ∈ ctypeCore l, isSpc c = false := by
    intro c hc
    have h0 := core_no_strip hc
    unfold ctypeStrip at h0
    rcases Bool.or_eq_false_iff.mp h0 with ⟨h1, -⟩
    exact (Bool.or_eq_false_iff.mp (Bool.or_eq_false_iff.mp h1).1).2
  have hfil : ∀ c ∈ ctypeCore l, (!ctypeStrip c) = true := by
    intro c hc
    rw [core_no_strip hc]; rfl
  nth_rewrite 1 [ctypeCore]
  rw [hup, trim_eq_self_of hsp, List.filter_eq_self.mpr hfil]

/-- **C8** (confirmed). `normCaseType` is idempotent: for every input string
`s`, `normCaseType (normCaseType s) = normCaseType s`. After uppercasing,
stripping and removing `[.\s()]`, the result contains no space or parenthesis,
so the literal alias replacements (whose patterns all contain a space or a
parenthesis) act as the identity on re-application, and the core
uppercase/trim/filter pipeline fixes its own image. -/
theorem C8_norm_case_type_idempotent (s : String) :
    norm_case_type (norm_case_type s) = norm_case_type s := by
  rw [norm_case_type_eq_core s, norm_case_type_eq_core (String.mk (ctypeCore s.data))]
  exact congrArg String.mk (ctypeCore_idem s.data)

/-! ## C2: the normCaseNumber equations -/

/-- **C2 counterexample.** The claim asserts `normCaseNumber "1/5" = "01/05"`,
but the year part of the shape `<digits> / <2-4 digits>` requires at least two
digits, so `"1/5"` does not match the shape and passes through unchanged. -/
theorem C2_counterexample_norm_year :
    norm_year "1/5" = "1/5" ∧ norm_year "1/5" ≠ "01/05" := by decide

/-- **C2 (amended).** `normCaseNumber "1/5" = "1/5"` (the one-digit year does
not match the shape, so the token passes through); the other three equations
hold as claimed; and every token whose uppercased, stripped form does not
match the shape `<digits> / <2-4 digits>` is returned as that uppercased,
stripped form (hence byte-for-byte unchanged whenever it is already uppercase
and has no surrounding whitespace). -/
theorem C2_amended_norm_year :
    norm_year "1/5" = "1/5" ∧
    norm_year "7/2023" = "07/23" ∧
    norm_year "5/2000" = "05/2000" ∧
    norm_year "ABC" = "ABC" ∧
    ∀ t : String, yearShape (trim (upper t.data)) = none →
      norm_year t = String.mk (trim (upper t.data)) := by
  refine ⟨by decide, by decide, by decide, by decide, ?_⟩
  intro t h
  simp only [norm_year, h]

/-- Witness for C2: the amended passthrough clause applied to the concrete
non-matching token `"a-b"`. -/
theorem C2_amended_norm_year_witness : norm_year "a-b" = "A-B" :=
  C2_amended_norm_year.2.2.2.2 "a-b" (by decide)

/-! ## C4: cleanTitleForMatch and the phrase "and another" -/

/-- **C4 counterexample.** The claim asserts that `cleanTitleForMatch` removes
whole-word occurrences of "and another"; in fact the second boilerplate regex
is `\bAND\s+ANR\.?\b` (the abbreviation), which does not match `AND ANOTHER`,
so the cleaned form of "Rahul Gupta And Another" still contains both AND and
ANOTHER. -/
theorem C4_counterexample_clean_title :
    clean_title_for_match "Rahul Gupta And Another" = "RAHUL GUPTA AND ANOTHER" ∧
    "ANOTHER" ∈ splitWs (clean_title_for_match "Rahul Gupta And Another") := by
  decide

/-- **C4 (amended).** `cleanTitleForMatch` removes whole-word occurrences of
"and others"/"and other" and of the abbreviation "and anr" (with optional
period), but it does not remove the spelled-out phrase "and another". -/
theorem C4_amended_clean_title :
    clean_title_for_match "Rahul Gupta And Others" = "RAHUL GUPTA" ∧
    clean_title_for_match "Rahul Gupta And Other" = "RAHUL GUPTA" ∧
    clean_title_for_match "Rahul Gupta And Anr" = "RAHUL GUPTA" ∧
    clean_title_for_match "Rahul Gupta And Anr." = "RAHUL GUPTA" ∧
    clean_title_for_match "Rahul Gupta And Another" = "RAHUL GUPTA AND ANOTHER" := by
  decide

/-! ## C5: strict priority of the exact tier -/

/-- **C5** (confirmed). Whenever the query's `(caseType, caseNumber)` pair is
bound in the exact map, `match_engine` returns that record's file number with
checkTag "Exact (type+no)"; the secondary map is universally quantified and
unconstrained, so no later tier can influence the result. -/
theorem C5_exact_tier_priority (row : Row) (exactMap : List ((String × String) × RefRec))
    (by_cno : List (String × List RefRec)) (r0 : RefRec)
    (h : alookup exactMap (row.caseType, row.caseNo) = some r0) :
    match_engine row exactMap by_cno = (r0.fileNo, verb r0, "Exact (type+no)") := by
  unfold match_engine
  rw [h]

/-- Witness for C5: a query whose exact key is bound to `refW`, while the
same-number candidate `refO` would win both later tiers on the query's title
("Gopal Singh"); the exact record is returned nonetheless. -/
theorem C5_exact_tier_priority_witness :
    match_engine (⟨"1", "WPC", "01/23", "Gopal Singh", ""⟩ : Row)
      [(("WPC", "01/23"), refW)] [("01/23", [refO])] =
      ("F100", verb refW, "Exact (type+no)") :=
  C5_exact_tier_priority _ _ _ refW (by decide)

/-! ## Lemmas about tokenization and the candidate loop -/

theorem splitWsAux_ne_nil : ∀ (l acc : List Char), ∀ s ∈ splitWsAux l acc, s ≠ "" := by
  intro l
  induction l with
  | nil =>
    intro acc s hs
    unfold splitWsAux at hs
    by_cases h : acc.isEmpty
    · rw [if_pos h] at hs
      exact absurd hs (List.not_mem_nil s)
    · rw [if_neg h] at hs
      have hrev : acc.reverse ≠ [] := by
        intro h0
        exact h (by simpa [List.isEmpty_iff] using List.reverse_eq_nil_iff.mp h0)
      rcases List.mem_singleton.mp hs with rfl
      intro h0
      exact hrev (congrArg String.data h0)
  | cons c t ih =>
    intro acc s hs
    unfold splitWsAux at hs
    by_cases hsp : isSpc c
    · rw [if_pos hsp] at hs
      by_cases hac : acc.isEmpty
      · rw [if_pos hac] at hs
        exact ih [] s hs
      · rw [if_neg hac] at hs
        have hrev : acc.reverse ≠ [] := by
          intro h0
          exact hac (by simpa [List.isEmpty_iff] using List.reverse_eq_nil_iff.mp h0)
        rcases List.mem_cons.mp hs with rfl | hmem
        · intro h0
          exact hrev (congrArg String.data h0)
        · exact ih [] s hmem
    · rw [if_neg hsp] at hs
      exact ih (c :: acc) s hs

theorem splitWs_mem_ne_nil {s : String} {t : String} (h : t ∈ splitWs s) : t ≠ "" :=
  splitWsAux_ne_nil s.data [] t h

theorem headD_mem {l : List String} (h : l ≠ []) : l.headD "" ∈ l := by
  cases l with
  | nil => exact absurd rfl h
  | cons a t => exact List.mem_cons_self a t

theorem matchLoop_append_skip (tq : List String) (ft : String) :
    ∀ (pre l2 : List RefRec) (best : Option RefRec) (bs : Int),
    (∀ c' ∈ pre, ¬ ftCond ft c') →
    ∃ b s, matchLoop tq ft (pre ++ l2) best bs = matchLoop tq ft l2 b s := by
  intro pre
  induction pre with
  | nil => exact fun l2 best bs _ => ⟨best, bs, rfl⟩
  | cons c rest ih =>
    intro l2 best bs h
    have hc : ¬ (splitWs c.title_clean ≠ [] ∧ ft ≠ "" ∧ (splitWs c.title_clean).headD "" = ft) :=
      h c (List.mem_cons_self c rest)
    have hrest : ∀ c' ∈ rest, ¬ ftCond ft c' :=
      fun c' h' => h c' (List.mem_cons_of_mem c h')
    simp only [List.cons_append, matchLoop]
    rw [if_neg hc]
    by_cases hs : (scoreOf tq c : Int) > bs
    · rw [if_pos hs]
      exact ih l2 (some c) (scoreOf tq c : Int) hrest
    · rw [if_neg hs]
      exact ih l2 best bs hrest

theorem matchLoop_no_ft (tq : List String) (ft : String) :
    ∀ (cands : List RefRec) (best : Option RefRec) (bs : Int),
    (∀ c ∈ cands, ¬ ftCond ft c) →
    matchLoop tq ft cands best bs = loopFinish (cands.foldl (bestStep tq) (best, bs)) := by
  intro cands
  induction cands with
  | nil =>
    intro best bs _
    cases best with
    | none => rfl
    | some b => rfl
  | cons c rest ih =>
    intro best bs h
    have hc : ¬ (splitWs c.title_clean ≠ [] ∧ ft ≠ "" ∧ (splitWs c.title_clean).headD "" = ft) :=
      h c (List.mem_cons_self c rest)
    have hrest : ∀ c' ∈ rest, ¬ ftCond ft c' :=
      fun c' h' => h c' (List.mem_cons_of_mem c h')
    simp only [matchLoop, List.foldl_cons]
    rw [if_neg hc]
    by_cases hs : (scoreOf tq c : Int) > bs
    · rw [if_pos hs, ih (some c) (scoreOf tq c : Int) hrest]
      have : bestStep tq (best, bs) c = (some c, (scoreOf tq c : Int)) := by
        unfold bestStep
        rw [if_pos hs]
      rw [this]
    · rw [if_neg hs, ih best bs hrest]
      have : bestStep tq (best, bs) c = (best, bs) := by
        unfold bestStep
        rw [if_neg hs]
      rw [this]

theorem foldl_bestStep_const (tq : List String) :
    ∀ (l : List RefRec) (b : Option RefRec) (s : Int),
    (∀ c ∈ l, (scoreOf tq c : Int) ≤ s) → l.foldl (bestStep tq) (b, s) = (b, s) := by
  intro l
  induction l with
  | nil => intro b s _; rfl
  | cons c rest ih =>
    intro b s h
    have hc : ¬ ((scoreOf tq c : Int) > s) := not_lt.mpr (h c (List.mem_cons_self c rest))
    simp only [List.foldl_cons]
    have hstep : bestStep tq (b, s) c = (b, s) := by
      unfold bestStep
      rw [if_neg hc]
    rw [hstep]
    exact ih b s (fun c' h' => h c' (List.mem_cons_of_mem c h'))

theorem foldl_bestStep_firstMax (tq : List String) :
    ∀ (l : List RefRec) (i : Nat) (hi : i < l.length) (b : Option RefRec) (s : Int),
    (∀ j (hj : j < l.length), j < i →
      scoreOf tq (l.get ⟨j, hj⟩) < scoreOf tq (l.get ⟨i, hi⟩)) →
    (∀ j (hj : j < l.length), scoreOf tq (l.get ⟨j, hj⟩) ≤ scoreOf tq (l.get ⟨i, hi⟩)) →
    (s < (scoreOf tq (l.get ⟨i, hi⟩) : Int)) →
    l.foldl (bestStep tq) (b, s) = (some (l.get ⟨i, hi⟩), (scoreOf tq (l.get ⟨i, hi⟩) : Int)) := by
  intro l
  induction l with
  | nil => intro i hi; exact absurd hi (Nat.not_lt_zero i)
  | cons c rest ih =>
    intro i hi b s hlt hle hs
    cases i with
    | zero =>
      simp only [List.foldl_cons]
      have hs0 : s < (scoreOf tq c : Int) := hs
      have hstep : bestStep tq (b, s) c = (some c, (scoreOf tq c : Int)) := by
        unfold bestStep
        rw [if_pos hs0]
      rw [hstep]
      apply foldl_bestStep_const
      intro c' h'
      obtain ⟨⟨j, hj⟩, rfl⟩ := List.mem_iff_get.mp h'
      have h2 := hle (j + 1) (Nat.succ_lt_succ hj)
      exact_mod_cast h2
    | succ k =>
      have hk : k < rest.length := Nat.lt_of_succ_lt_succ hi
      simp only [List.foldl_cons]
      have hc0 : scoreOf tq c < scoreOf tq (rest.get ⟨k, hk⟩) :=
        hlt 0 (Nat.zero_lt_succ _) (Nat.succ_pos k)
      have hlt2 : ∀ j (hj : j < rest.length), j < k →
          scoreOf tq (rest.get ⟨j, hj⟩) < scoreOf tq (rest.get ⟨k, hk⟩) :=
        fun j hj hjk => hlt (j + 1) (Nat.succ_lt_succ hj) (Nat.succ_lt_succ hjk)
      have hle2 : ∀ j (hj : j < rest.length),
          scoreOf tq (rest.get ⟨j, hj⟩) ≤ scoreOf tq (rest.get ⟨k, hk⟩) :=
        fun j hj => hle (j + 1) (Nat.succ_lt_succ hj)
      by_cases hbs : (scoreOf tq c : Int) > s
      · have hstep : bestStep tq (b, s) c = (some c, (scoreOf tq c : Int)) := by
          unfold bestStep
          rw [if_pos hbs]
        rw [hstep]
        exact ih k hk (some c) (scoreOf tq c : Int) hlt2 hle2 (by exact_mod_cast hc0)
      · have hstep : bestStep tq (b, s) c = (b, s) := by
          unfold bestStep
          rw [if_neg hbs]
        rw [hstep]
        exact ih k hk b s hlt2 hle2 hs

/-! ## C6: the cross-type first-token tier -/

/-- **C6** (confirmed). For a query absent from the exact map whose candidate
list decomposes as `pre ++ c :: post` where no candidate in `pre` passes the
first-token test and `c` does (its cleaned-title first token equals the
query's), the engine returns `c` with checkTag "Cross-type first-token match",
whatever the overlap scores of the other candidates are. -/
theorem C6_first_token_tier (row : Row) (ex : List ((String × String) × RefRec))
    (byno : List (String × List RefRec)) (pre : List RefRec) (c : RefRec) (post : List RefRec)
    (hex : alookup ex (row.caseType, row.caseNo) = none)
    (hc : alookup byno row.caseNo = some (pre ++ c :: post))
    (hqt : splitWs (clean_title_for_match row.title) ≠ [])
    (hpre : ∀ c' ∈ pre, ¬ ftCond ((splitWs (clean_title_for_match row.title)).headD "") c')
    (hcm : (splitWs c.title_clean).headD "" =
      (splitWs (clean_title_for_match row.title)).headD "") :
    match_engine row ex byno = (c.fileNo, verb c, "Cross-type first-token match") := by
  have hft : (splitWs (clean_title_for_match row.title)).headD "" ≠ "" :=
    splitWs_mem_ne_nil (headD_mem hqt)
  have htitle : row.title ≠ "" := by
    intro h0
    apply hqt
    rw [h0]
    decide
  have hctoks : splitWs c.title_clean ≠ [] := by
    intro h0
    apply hft
    rw [← hcm, h0]
    rfl
  simp only [match_engine, hex, hc, Option.getD_some]
  rw [if_pos ⟨by simp, htitle⟩]
  obtain ⟨b, s, hskip⟩ :=
    matchLoop_append_skip (splitWs (clean_title_for_match row.title))
      ((splitWs (clean_title_for_match row.title)).headD "") pre (c :: post) none (-1) hpre
  rw [hskip]
  simp only [matchLoop]
  rw [if_pos ⟨hctoks, hft, hcm⟩]

/-- Witness for C6: the query "Ram Chand And Anr." (cleaned first token RAM)
against candidates `[refH, refR]`: `refH` has the larger raw overlap (two
shared tokens) but a different first token, so the scan returns `refR` by
first token. -/
theorem C6_first_token_tier_witness :
    match_engine (⟨"1", "OWP", "01/23", "Ram Chand And Anr.", ""⟩ : Row) []
      [("01/23", [refH, refR])] = ("F300", verb refR, "Cross-type first-token match") :=
  C6_first_token_tier _ [] _ [refH] refR [] rfl (by decide) (by decide) (by decide) (by decide)

/-! ## C7: the title-overlap tier -/

/-- **C7** (confirmed). In the overlap tier (exact miss, nonempty candidates,
nonempty title, no candidate passes the first-token test), if position `i` is
the first maximum of the overlap scores (all earlier candidates score strictly
less, all candidates score at most it), the engine returns the candidate at
`i` with checkTag "Cross-type title overlap" exactly when that winning score
is at least 1, and "No overlap (type mismatch)" otherwise. -/
theorem C7_overlap_tier (row : Row) (ex : List ((String × String) × RefRec))
    (byno : List (String × List RefRec)) (cands : List RefRec) (i : Nat) (hi : i < cands.length)
    (hex : alookup ex (row.caseType, row.caseNo) = none)
    (hc : alookup byno row.caseNo = some cands)
    (ht : row.title ≠ "")
    (hnoft : ∀ c' ∈ cands, ¬ ftCond ((splitWs (clean_title_for_match row.title)).headD "") c')
    (hlt : ∀ j (hj : j < cands.length), j < i →
      scoreOf (splitWs (clean_title_for_match row.title)) (cands.get ⟨j, hj⟩) <
        scoreOf (splitWs (clean_title_for_match row.title)) (cands.get ⟨i, hi⟩))
    (hle : ∀ j (hj : j < cands.length),
      scoreOf (splitWs (clean_title_for_match row.title)) (cands.get ⟨j, hj⟩) ≤
        scoreOf (splitWs (clean_title_for_match row.title)) (cands.get ⟨i, hi⟩)) :
    match_engine row ex byno =
      if 1 ≤ scoreOf (splitWs (clean_title_for_match row.title)) (cands.get ⟨i, hi⟩) then
        ((cands.get ⟨i, hi⟩).fileNo, verb (cands.get ⟨i, hi⟩), "Cross-type title overlap")
      else ("", "", "No overlap (type mismatch)") := by
  have hne : cands ≠ [] := List.ne_nil_of_length_pos (Nat.lt_of_le_of_lt (Nat.zero_le i) hi)
  simp only [match_engine, hex, hc, Option.getD_some]
  rw [if_pos ⟨hne, ht⟩]
  rw [matchLoop_no_ft _ _ cands none (-1) hnoft]
  rw [foldl_bestStep_firstMax _ cands i hi none (-1) hlt hle
    (lt_of_lt_of_le (by norm_num) (Int.natCast_nonneg _))]
  simp only [loopFinish]
  by_cases h1 : 1 ≤ scoreOf (splitWs (clean_title_for_match row.title)) (cands.get ⟨i, hi⟩)
  · rw [if_pos h1, if_pos (by exact_mod_cast h1)]
  · rw [if_neg h1, if_neg (by
      intro hcon
      exact h1 (by exact_mod_cast hcon))]

/-- Witness for C7: the query "Sita Devi vs Gopal" against `[refO, refR]`
(first tokens GOPAL and RAM, neither equal to SITA): both candidates score 1,
so position 0 (`refO`) is the first maximum and wins the tie. -/
theorem C7_overlap_tier_witness :
    match_engine (⟨"1", "OWP", "01/23", "Sita Devi vs Gopal", ""⟩ : Row) []
      [("01/23", [refO, refR])] = ("F200", verb refO, "Cross-type title overlap") := by
  rw [C7_overlap_tier (⟨"1", "OWP", "01/23", "Sita Devi vs Gopal", ""⟩ : Row) []
    [("01/23", [refO, refR])] [refO, refR] 0 (by decide) rfl (by decide) (by decide) (by decide)
    (fun j hj hj0 => absurd hj0 (Nat.not_lt_zero j))
    (by
      intro j hj
      have h2 : j = 0 ∨ j = 1 := by
        simp only [List.length_cons, List.length_nil] at hj
        omega
      rcases h2 with rfl | rfl
      · exact Nat.le_refl _
      · show scoreOf (splitWs (clean_title_for_match "Sita Devi vs Gopal")) refR ≤
          scoreOf (splitWs (clean_title_for_match "Sita Devi vs Gopal")) refO
        decide)]
  decide

/-! ## C1: the two unmatched checkTags -/

/-- **C1 counterexample.** A query absent from the exact map (it is empty),
with a nonempty candidate list under its case number but an empty title: the
claim says the engine returns "No overlap (type mismatch)", but the code's
guard `if cands and title` fails on the empty title and the engine returns
"Not found". -/
theorem C1_counterexample_empty_title :
    match_engine (⟨"1", "WPC", "01/23", "", ""⟩ : Row) [] [("01/23", [refO])] =
      ("", "", "Not found") ∧
    alookup [("01/23", [refO])] "01/23" = some [refO] ∧
    ("", "", "Not found") ≠ (("", "", "No overlap (type mismatch)") : String × String × String) := by
  decide

/-- **C1 (amended).** For a query absent from the exact map with a nonempty
candidate list: when the query's title is empty the engine returns "Not found"
(despite the candidates); when the title is nonempty and no tier produces a
match (no first-token hit and every overlap score is zero) it returns
"No overlap (type mismatch)" with empty fileNumber. -/
theorem C1_amended_unmatched_tags (row : Row) (ex : List ((String × String) × RefRec))
    (byno : List (String × List RefRec)) (cands : List RefRec)
    (hex : alookup ex (row.caseType, row.caseNo) = none)
    (hc : alookup byno row.caseNo = some cands)
    (hne : cands ≠ []) :
    (row.title = "" → match_engine row ex byno = ("", "", "Not found")) ∧
    ((row.title ≠ "" ∧
      (∀ c ∈ cands, ¬ ftCond ((splitWs (clean_title_for_match row.title)).headD "") c) ∧
      ∀ c ∈ cands, scoreOf (splitWs (clean_title_for_match row.title)) c = 0) →
      match_engine row ex byno = ("", "", "No overlap (type mismatch)")) := by
  constructor
  · intro ht
    simp only [match_engine, hex, hc, Option.getD_some]
    rw [if_neg (fun hcon => hcon.2 ht)]
  · rintro ⟨ht, hnoft, hzero⟩
    simp only [match_engine, hex, hc, Option.getD_some]
    rw [if_pos ⟨hne, ht⟩]
    rw [matchLoop_no_ft _ _ cands none (-1) hnoft]
    cases cands with
    | nil => exact absurd rfl hne
    | cons c0 rest =>
      simp only [List.foldl_cons]
      have hstep : bestStep (splitWs (clean_title_for_match row.title)) (none, -1) c0 =
          (some c0, (scoreOf (splitWs (clean_title_for_match row.title)) c0 : Int)) := by
        unfold bestStep
        rw [if_pos (lt_of_lt_of_le (by norm_num) (Int.natCast_nonneg _))]
      rw [hstep]
      rw [foldl_bestStep_const _ rest (some c0) _ (by
        intro c' h'
        rw [hzero c' (List.mem_cons_of_mem c0 h'), hzero c0 (List.mem_cons_self c0 rest)])]
      simp only [loopFinish]
      rw [if_neg (by
        rw [hzero c0 (List.mem_cons_self c0 rest)]
        norm_num)]

/-- Witness for C1: the empty-title branch of the amended claim at the
concrete input of the counterexample, and the nonempty-title branch at a
title with no token overlap. -/
theorem C1_amended_unmatched_tags_witness :
    match_engine (⟨"2", "WPC", "01/23", "Prem Nath", ""⟩ : Row) [] [("01/23", [refO])] =
      ("", "", "No overlap (type mismatch)") :=
  (C1_amended_unmatched_tags (⟨"2", "WPC", "01/23", "Prem Nath", ""⟩ : Row) [] [("01/23", [refO])]
    [refO] rfl (by decide) (by decide)).2 (by decide)

/-! ## Lemmas about the reference index -/

theorem alookup_append {α β : Type} [DecidableEq α] (m m2 : List (α × β)) (k : α) :
    alookup (m ++ m2) k =
      match alookup m k with
      | some v => some v
      | none => alookup m2 k := by
  induction m with
  | nil => rfl
  | cons p rest ih =>
    obtain ⟨k1, v1⟩ := p
    by_cases h : k1 = k
    · simp only [List.cons_append, alookup, if_pos h]
    · simp only [List.cons_append, alookup, if_neg h]
      exact ih

theorem alookup_mem {α β : Type} [DecidableEq α] {m : List (α × β)} {k : α} {v : β}
    (h : alookup m k = some v) : (k, v) ∈ m := by
  induction m with
  | nil => exact absurd h (by simp [alookup])
  | cons p rest ih =>
    obtain ⟨k1, v1⟩ := p
    by_cases hk : k1 = k
    · rw [alookup, if_pos hk] at h
      subst hk
      obtain rfl := Option.some_injective _ h
      exact List.mem_cons_self _ _
    · rw [alookup, if_neg hk] at h
      exact List.mem_cons_of_mem _ (ih h)

theorem alookup_insNew_preserved {m : List ((String × String) × RefRec)}
    {k : String × String} {v : RefRec} (k2 : String × String) (v2 : RefRec)
    (h : alookup m k = some v) : alookup (insNew m k2 v2) k = some v := by
  unfold insNew
  by_cases hs : (alookup m k2).isSome
  · rw [if_pos hs]; exact h
  · rw [if_neg hs, alookup_append, h]

theorem alookup_insNew_miss {m : List ((String × String) × RefRec)}
    {k : String × String} (k2 : String × String) (v2 : RefRec)
    (h : alookup m k = none) (hk : k2 ≠ k) : alookup (insNew m k2 v2) k = none := by
  unfold insNew
  by_cases hs : (alookup m k2).isSome
  · rw [if_pos hs]; exact h
  · rw [if_neg hs, alookup_append, h]
    simp [alookup, hk]

theorem alookup_insNew_new {m : List ((String × String) × RefRec)}
    {k : String × String} (v : RefRec)
    (h : alookup m k = none) : alookup (insNew m k v) k = some v := by
  unfold insNew
  rw [if_neg (by rw [h]; simp), alookup_append, h]
  simp [alookup]

theorem foldl_indexStep_preserved (l : List RefRec)
    (acc : List ((String × String) × RefRec) × List (String × List RefRec))
    (k : String × String) (v : RefRec) (h : alookup acc.1 k = some v) :
    alookup (l.foldl indexStep acc).1 k = some v := by
  induction l generalizing acc with
  | nil => exact h
  | cons r rest ih =>
    simp only [List.foldl_cons]
    exact ih (indexStep acc r) (alookup_insNew_preserved _ _ h)

theorem foldl_indexStep_miss (l : List RefRec)
    (acc : List ((String × String) × RefRec) × List (String × List RefRec))
    (k : String × String) (h : alookup acc.1 k = none)
    (hk : ∀ q ∈ l, (q.case_type_norm, q.case_no_norm) ≠ k) :
    alookup (l.foldl indexStep acc).1 k = none := by
  induction l generalizing acc with
  | nil => exact h
  | cons r rest ih =>
    simp only [List.foldl_cons]
    exact ih (indexStep acc r)
      (alookup_insNew_miss _ _ h (hk r (List.mem_cons_self r rest)))
      (fun q hq => hk q (List.mem_cons_of_mem r hq))

theorem mmAdd_values {m : List (String × List RefRec)} {k : String} {v : RefRec}
    (hm : ∀ p ∈ m, ∀ x ∈ p.2, x.case_no_norm ≠ "") (hv : v.case_no_norm ≠ "") :
    ∀ p ∈ mmAdd m k v, ∀ x ∈ p.2, x.case_no_norm ≠ "" := by
  induction m with
  | nil =>
    intro p hp x hx
    rcases List.mem_singleton.mp hp with rfl
    rcases List.mem_singleton.mp hx with rfl
    exact hv
  | cons q rest ih =>
    obtain ⟨k1, l1⟩ := q
    intro p hp x hx
    unfold mmAdd at hp
    by_cases hk : k1 = k
    · rw [if_pos hk] at hp
      rcases List.mem_cons.mp hp with rfl | hmem
      · rcases List.mem_append.mp hx with hx1 | hx2
        · exact hm (k1, l1) (List.mem_cons_self _ _) x hx1
        · rcases List.mem_singleton.mp hx2 with rfl
          exact hv
      · exact hm p (List.mem_cons_of_mem _ hmem) x hx
    · rw [if_neg hk] at hp
      rcases List.mem_cons.mp hp with rfl | hmem
      · exact hm (k1, l1) (List.mem_cons_self _ _) x hx
      · exact ih (fun p2 h2 => hm p2 (List.mem_cons_of_mem _ h2)) p hmem x hx

theorem foldl_indexStep_values (l : List RefRec)
    (acc : List ((String × String) × RefRec) × List (String × List RefRec))
    (h : ∀ p ∈ acc.2, ∀ x ∈ p.2, x.case_no_norm ≠ "") :
    ∀ p ∈ (l.foldl indexStep acc).2, ∀ x ∈ p.2, x.case_no_norm ≠ "" := by
  induction l generalizing acc with
  | nil => exact h
  | cons r rest ih =>
    simp only [List.foldl_cons]
    apply ih (indexStep acc r)
    unfold indexStep
    by_cases hr : r.case_no_norm ≠ ""
    · rw [if_pos hr]
      exact mmAdd_values h hr
    · rw [if_neg hr]
      exact h

/-! ## C10: empty normalized case numbers and the two maps -/

/-- **C10** (confirmed). Every candidate list of the secondary map contains
only records with a nonempty normalized case number (records with an empty one
are skipped by the guard, so tiers 2-4 never see them); yet such a record is
still inserted into the exact map under its `(caseTypeNorm, "")` key when it
is the first record with that key. -/
theorem C10_empty_cno_indexing (master m1 m2 : List RefRec) (r : RefRec)
    (hsplit : master = m1 ++ r :: m2)
    (hcno : r.case_no_norm = "")
    (hfirst : ∀ q ∈ m1, (q.case_type_norm, q.case_no_norm) ≠ (r.case_type_norm, "")) :
    (∀ k L, alookup (index_master master).2 k = some L → ∀ x ∈ L, x.case_no_norm ≠ "") ∧
    alookup (index_master master).1 (r.case_type_norm, "") = some r := by
  constructor
  · intro k L hkL x hx
    exact foldl_indexStep_values master ([], []) (by intro p hp; cases hp) (k, L)
      (alookup_mem hkL) x hx
  · unfold index_master
    rw [hsplit, List.foldl_append, List.foldl_cons]
    apply foldl_indexStep_preserved
    have hmiss : alookup (m1.foldl indexStep ([], [])).1 (r.case_type_norm, "") = none :=
      foldl_indexStep_miss m1 ([], []) _ rfl hfirst
    show alookup (insNew (m1.foldl indexStep ([], [])).1
      (r.case_type_norm, r.case_no_norm) r) (r.case_type_norm, "") = some r
    rw [hcno]
    exact alookup_insNew_new r hmiss

/-- Witness for C10: in the master list `[refO, refE]` the record `refE` has
an empty normalized case number and a fresh type key, so the exact map binds
`("X", "")` to it. -/
theorem C10_empty_cno_indexing_witness :
    alookup (index_master [refO, refE]).1 ("X", "") = some refE :=
  (C10_empty_cno_indexing [refO, refE] [refO] [] refE rfl rfl (by decide)).2

/-! ## Lemmas about the block parser -/

theorem titleFold_full : ∀ (cs parts : List String), 2 ≤ parts.length →
    titleFold parts cs = parts := by
  intro cs
  induction cs with
  | nil => intro parts _; rfl
  | cons ln rest ih =>
    intro parts h
    simp only [titleFold]
    rw [if_neg (by
      intro hcon
      have h2 := (Bool.and_eq_true_iff.mp hcon).2
      have h3 : parts.length < 2 := of_decide_eq_true h2
      omega)]
    exact ih parts h

theorem titleFold_one : ∀ (cs : List String) (t : String),
    titleFold [t] cs =
      t :: ((cs.filter (fun ln => !cleanse_noise ln && is_party_like ln)).take 1).map trimS := by
  intro cs
  induction cs with
  | nil => intro t; rfl
  | cons ln rest ih =>
    intro t
    simp only [titleFold, List.filter_cons]
    by_cases hq : (!cleanse_noise ln && is_party_like ln) = true
    · rw [if_pos (by simp [hq])]
      rw [titleFold_full rest ([t] ++ [trimS ln]) (by simp)]
      simp [hq]
    · rw [if_neg (by simp [hq])]
      rw [if_neg hq]
      exact ih t

/-! ## C3: the inline tail and the two-fragment budget -/

/-- **C3 counterexample.** A start line with a nonempty inline tail followed by
two party-like, non-noise continuation lines: the claim says both continuation
fragments are appended after the inline tail, but the inline tail itself
occupies one slot of the two-fragment budget, so only the first continuation
line enters the title and "MOHAN VS SOHAN" is dropped. -/
theorem C3_counterexample_two_fragments :
    parse_blocks ["1 WPC 1/23 RAM VS SHYAM", "SITA VS GITA", "MOHAN VS SOHAN"] =
      [⟨"1", "WPC", "01/23", "RAM VS SHYAM SITA VS GITA", "Inline title"⟩] ∧
    ("RAM VS SHYAM SITA VS GITA" : String) ≠ "RAM VS SHYAM SITA VS GITA MOHAN VS SOHAN" := by
  constructor
  · rfl
  · decide

/-- **C3 (amended).** For every block whose start line has a nonempty inline
trailing text and which is followed by at least one continuation line that is
party-like and not noise, the emitted primary record's title is the inline
tail concatenated with only the FIRST such qualifying fragment (trimmed,
whitespace-collapsed): the inline tail consumes one slot of the two-fragment
budget, so exactly one continuation fragment is appended and any further
qualifying lines are ignored. -/
theorem C3_amended_title_budget (l : String) (rest : List String) (g : StartGroups)
    (q : String) (qs : List String)
    (h1 : startMatch l = some g)
    (h2 : trimS g.tail ≠ "")
    (h3 : (rest.takeWhile notStart).filter
      (fun ln => !cleanse_noise ln && is_party_like ln) = q :: qs) :
    (parse_blocks (l :: rest)).head? =
      some ⟨g.sno, norm_case_type g.ctypeRaw, norm_year g.cnoRaw,
        joinTitle [trimS g.tail, trimS q], "Inline title"⟩ := by
  show (parseBlocksAux (rest.length + 1) (l :: rest)).head? = _
  simp only [parseBlocksAux, h1]
  rw [if_pos h2, if_pos h2]
  rw [titleFold_one (rest.takeWhile notStart) (trimS g.tail), h3]
  simp

/-- Witness for C3 (amended): the first block of the counterexample input,
whose qualifying continuation lines are "SITA VS GITA" and "MOHAN VS SOHAN";
only the first is appended. -/
theorem C3_amended_title_budget_witness :
    (parse_blocks ["1 WPC 1/23 RAM VS SHYAM", "SITA VS GITA", "MOHAN VS SOHAN"]).head? =
      some ⟨"1", "WPC", "01/23", "RAM VS SHYAM SITA VS GITA", "Inline title"⟩ := by
  rw [C3_amended_title_budget "1 WPC 1/23 RAM VS SHYAM" ["SITA VS GITA", "MOHAN VS SOHAN"]
    ⟨"1", "WPC", "1/23", "RAM VS SHYAM"⟩ "SITA VS GITA" ["MOHAN VS SOHAN"]
    (by decide) (by decide) (by decide)]
  rfl

/-! ## Lemmas about the clubbed-case scan -/

theorem cwScan_ne_nil (l : List Char) :
    ∀ (fuel p q : Nat), p ≤ q → q < l.length → (cwMatchAt l q).isSome →
    q - p < fuel → cwScan l fuel p ≠ [] := by
  intro fuel
  induction fuel with
  | zero => intro p q _ _ _ h4; exact absurd h4 (Nat.not_lt_zero _)
  | succ n ih =>
    intro p q h1 h2 h3 h4
    have hplen : ¬ (p ≥ l.length) := by omega
    simp only [cwScan]
    rw [if_neg hplen]
    cases hm : cwMatchAt l p with
    | some m => simp
    | none =>
      have hpq : p ≠ q := by
        intro he
        rw [← he, hm] at h3
        simp at h3
      exact ih (p + 1) q (by omega) h2 h3 (by omega)

/-! ## C9: the bare "with" marker and clubbed extraction -/

/-- **C9 counterexample.** The block text contains the word WITH followed by
the token `APC 3/23` (ending in /23), yet no clubbed record is emitted for
that occurrence: the earlier `c/w` match's greedy title capture `[^\n]+`
swallows the remainder of the line, so the scan resumes after it and only one
clubbed record (02/23) is produced — none with case number 03/23. -/
theorem C9_counterexample_swallowed_with :
    parse_blocks ["1 WPC 1/23 FOO", "C/W OWP 2/23 BAR WITH APC 3/23 BAZ"] =
      [⟨"1", "WPC", "01/23", "FOO C/W OWP 2/23 BAR WITH APC 3/23 BAZ", "Inline title"⟩,
       ⟨"1", "OWP", "02/23", "BAR WITH APC 3/23 BAZ", "Clubbed inline"⟩] ∧
    ∀ r ∈ parse_blocks ["1 WPC 1/23 FOO", "C/W OWP 2/23 BAR WITH APC 3/23 BAZ"],
      r.caseNo ≠ "03/23" := by
  constructor
  · rfl
  · decide

/-- **C9 (amended).** The clubbed-marker alternation accepts the bare word
"with" (case-insensitively, with word boundaries) exactly as it accepts
"c/w": whenever any position of a block's accumulated text carries a match of
the clubbed pattern — in particular a reachable bare-"with" occurrence
followed by a case-number/year token, with no "c/w" present — the block emits
at least one additional CaseRecord with titleSource "Clubbed inline"; records
are emitted per scan match, not per raw occurrence, so an occurrence lying
inside an earlier match's span (e.g. swallowed by its greedy title capture)
produces none. -/
theorem C9_amended_with_marker (l : String) (rest : List String) (g : StartGroups) (p : Nat)
    (h1 : startMatch l = some g)
    (hp : p < (String.intercalate "\n" (l :: rest.takeWhile notStart)).data.length)
    (hm : (cwMatchAt (String.intercalate "\n" (l :: rest.takeWhile notStart)).data p).isSome) :
    (parse_blocks (l :: rest)).any
      (fun r => r.titleSrc == "Clubbed inline" && r.sno == g.sno) = true := by
  show (parseBlocksAux (rest.length + 1) (l :: rest)).any _ = true
  simp only [parseBlocksAux, h1]
  have hscan : cwFindAll (String.intercalate "\n" (l :: rest.takeWhile notStart)).data ≠ [] := by
    apply cwScan_ne_nil _ _ 0 p (Nat.zero_le p) hp hm
    omega
  obtain ⟨m, ms, hms⟩ := List.exists_cons_of_ne_nil hscan
  rw [hms]
  simp [mkClubbed]

/-- Witness for C9 (amended): the block `"1 WPC 1/23 FOO"` with continuation
`"SEEN WITH OWP 2/23 BAR"` contains no `c/w` marker; position 20 of the block
text starts the bare-WITH match, and a clubbed record is emitted. -/
theorem C9_amended_with_marker_witness :
    (parse_blocks ["1 WPC 1/23 FOO", "SEEN WITH OWP 2/23 BAR"]).any
      (fun r => r.titleSrc == "Clubbed inline" && r.sno == "1") = true :=
  C9_amended_with_marker "1 WPC 1/23 FOO" ["SEEN WITH OWP 2/23 BAR"]
    ⟨"1", "WPC", "1/23", "FOO"⟩ 20 (by decide) (by decide) (by decide)

end CaseParser
